import Mathlib

/-!
Verification of the sentence-assignment and session-progress engine of the
voicer speech-collection platform, embedded shallowly from `main_app/app.py`.

Strings are modelled as lists of characters (`Str`); Python string helpers
(`strip`, `lower`, `split("-", 1)`, `splitlines`) are given explicit
executable definitions. Durations are rationals. Storage-backed operations
(session rows, leaderboard rows, the S3 metadata blob) are modelled as pure
transformations of explicit in-memory stores; `random.choice` over a
non-empty list is modelled by an arbitrary index supplied as a parameter.
-/

/-- Character type used throughout: a Python string is a list of characters. -/
abbrev Str := List Char

/-- ASCII lowercasing of one character, the per-character action of
Python `str.lower` on the code points this data uses. -/
def charLower (c : Char) : Char :=
  if 65 ≤ c.toNat ∧ c.toNat ≤ 90 then Char.ofNat (c.toNat + 32) else c

/-- Python whitespace test for `str.strip`: space, tab, newline, carriage
return, vertical tab, form feed. -/
def pyIsSpace (c : Char) : Bool :=
  c.toNat = 32 || c.toNat = 9 || c.toNat = 10 || c.toNat = 13 || c.toNat = 11 || c.toNat = 12

/-- Python `str.lower`. -/
def pyLower (l : Str) : Str := l.map charLower

/-- Python `str.strip`: drop leading and trailing whitespace. -/
def pyStrip (l : Str) : Str :=
  ((l.dropWhile pyIsSpace).reverse.dropWhile pyIsSpace).reverse

/-- The normalisation prefix of `split_dialect_code` (and of
`filter_sentences`): `(dialect_code or "").strip().lower() or "unk-gen"`. -/
def normDialect (l : Str) : Str :=
  let t := pyLower (pyStrip l)
  if t = [] then ("unk-gen").data else t

/-- Split at the first dash, Python `s.split("-", 1)`: `none` when no dash. -/
def splitFirstDash : Str → Option (Str × Str)
  | [] => none
  | c :: rest =>
      if c = '-' then some ([], rest)
      else
        match splitFirstDash rest with
        | some (a, b) => some (c :: a, b)
        | none => none

/-- `split_dialect_code` from `main_app/app.py`: normalise, split on the
first dash; with no dash the subtag defaults to `gen`. -/
def split_dialect_code (l : Str) : Str × Str :=
  let d := normDialect l
  match splitFirstDash d with
  | some (a, b) => (a, b)
  | none => (d, ("gen").data)

/-- `get_fallback_dialect_code`: the `<country>-oth` code. -/
def get_fallback_dialect_code (l : Str) : Str :=
  (split_dialect_code l).1 ++ ("-oth").data

/-- `get_country_code_from_dialect_code`: first component, `unk` if empty. -/
def get_country_code_from_dialect_code (l : Str) : Str :=
  if (split_dialect_code l).1 = [] then ("unk").data else (split_dialect_code l).1

/-- Re-join a split dialect code with a dash, for the re-normalisation law. -/
def joinDialect (p : Str × Str) : Str := p.1 ++ '-' :: p.2

/-- One sentence record of a per-country pool: `(unique_id, text, dialect)`. -/
structure Sentence where
  unique_id : Str
  text : Str
  dialect : List Str
deriving DecidableEq

/-- The inner `_pick` of `filter_sentences`: sentences of the pool whose id is
not completed and whose dialect list contains `dcode`, tagged with `dcode`. -/
def pick_for_code (all_sentences : List Sentence) (completed_ids : List Str) (dcode : Str) :
    List (Str × Str × Str) :=
  (all_sentences.filter
      (fun s => decide (s.unique_id ∉ completed_ids) && decide (dcode ∈ s.dialect))).map
    (fun s => (s.unique_id, s.text, dcode))

/-- `filter_sentences` from `main_app/app.py`. The per-country pool load is a
parameter `pools` (country code to cached sentence list). -/
def filter_sentences (pools : Str → List Sentence) (dialect_code : Str)
    (completed_ids : List Str) (allow_fallback : Bool) : List (Str × Str × Str) :=
  let dcode := normDialect dialect_code
  let country_code := (split_dialect_code dcode).1
  let all_sentences := pools country_code
  let primary := pick_for_code all_sentences completed_ids dcode
  if primary ≠ [] then primary
  else if allow_fallback then
    pick_for_code all_sentences completed_ids (get_fallback_dialect_code dcode)
  else []

/-- The selection step used by the login and next-sentence handlers:
`filter_sentences` followed by `random.choice` on a non-empty result, modelled
by an arbitrary index `k`; `none` exactly when the candidate list is empty. -/
def select (pools : Str → List Sentence) (dialect_code : Str) (completed_ids : List Str)
    (allow_fallback : Bool) (k : ℕ) : Option (Str × Str × Str) :=
  let available := filter_sentences pools dialect_code completed_ids allow_fallback
  available.get? (k % available.length)

/-- The ratio computed inside `make_progress_bar`: `0` when the target is not
positive (the guarded branch that avoids the division), otherwise
`current / target` clamped to `[0, 1]`. The bar string rendered from it is
presentational. -/
def make_progress_bar_frac (current_seconds target_seconds : ℚ) : ℚ :=
  if target_seconds ≤ 0 then 0
  else max 0 (min 1 (current_seconds / target_seconds))

/-- One row of the `leaderboard_lifetime_country` table. -/
structure LBRow where
  country_code : Str
  username : Str
  emoji : Str
  alias_label : Str
  time_seconds : ℚ
  sentences : ℕ
deriving DecidableEq

/-- `LEADERBOARD_MIN_SECONDS_TO_SHOW` from `main_app/app.py`. -/
def LEADERBOARD_MIN_SECONDS_TO_SHOW : ℚ := 60

/-- Conflict key of the leaderboard upsert: `(country_code, username)`. -/
def lbSameKey (r row : LBRow) : Bool :=
  decide (r.country_code = row.country_code ∧ r.username = row.username)

/-- Upsert semantics of the persistence service on conflict key
`country_code,username`: replace the matching row, else insert. -/
def upsert_leaderboard_row (db : List LBRow) (row : LBRow) : List LBRow :=
  if db.any (fun r => lbSameKey r row) then
    db.map (fun r => if lbSameKey r row then row else r)
  else db ++ [row]

/-- `upsert_lifetime_leaderboard_entry_country` from `main_app/app.py`, as a
transformation of the leaderboard store. The session load supplies
`sess_completed` and `sess_total`; the alias row supplies `emoji` and
`alias_label`, with `alias_missing` modelling a failed alias lookup (the code
returns without writing in that case). Durations below
`LEADERBOARD_MIN_SECONDS_TO_SHOW` return without writing. -/
def upsert_lifetime_leaderboard_entry_country (db : List LBRow) (username : Str)
    (user_dialect_code : Str) (alias_missing : Bool) (emoji alias_label : Str)
    (sess_completed : List Str) (sess_total : ℚ) : List LBRow :=
  let country_code := get_country_code_from_dialect_code user_dialect_code
  if alias_missing then db
  else if sess_total < LEADERBOARD_MIN_SECONDS_TO_SHOW then db
  else
    upsert_leaderboard_row db
      ⟨country_code, username, emoji, alias_label, sess_total, sess_completed.length⟩

/-- `fetch_user_row_country`: first stored row for `(country_code, username)`. -/
def fetch_user_row_country (db : List LBRow) (country_code username : Str) : Option LBRow :=
  (db.filter (fun r => decide (r.country_code = country_code ∧ r.username = username))).head?

/-- `get_user_rank_country` from `main_app/app.py`: `none` when the participant
has no row, else one plus the count of same-country rows with strictly greater
`time_seconds`. -/
def get_user_rank_country (db : List LBRow) (country_code username : Str) : Option ℕ :=
  match fetch_user_row_country db country_code username with
  | none => none
  | some me =>
      some ((db.filter
        (fun r => decide (r.country_code = country_code ∧ me.time_seconds < r.time_seconds))).length + 1)

/-- Contents of an audio file as the `soundfile` library exposes it: frame
count, sample rate, and whether opening it succeeds. -/
structure SoundData where
  frames : ℕ
  samplerate : ℕ
  readable : Bool
deriving DecidableEq

/-- Duration in seconds: `len(f) / f.samplerate`. -/
def sound_duration (a : SoundData) : ℚ := (a.frames : ℚ) / (a.samplerate : ℚ)

/-- `validate_audio` from `main_app/app.py`: `(ok, message, duration)`. -/
def validate_audio (a : SoundData) : Bool × Str × Option ℚ :=
  if a.readable = false then (false, ("Audio error").data, none)
  else if a.samplerate < 16000 then
    (false, ("Sample rate too low").data, some (sound_duration a))
  else if sound_duration a < 1 then
    (false, ("Recording too short").data, some (sound_duration a))
  else (true, ("OK").data, some (sound_duration a))

/-- Duration measured by `save_recording_and_upload` on the saved file:
the file duration, or `0.0` when reading it back fails. -/
def save_recording_duration (a : SoundData) : ℚ :=
  if a.readable then sound_duration a else 0

/-- The per-browser-session `gr.State` dictionary of `build_app`. -/
structure AppState where
  logged_in : Bool
  username : Str
  user_dialect_code : Option Str
  active_dialect_code : Option Str
  dialect_code : Option Str
  completed_sentences : List Str
  total_duration : ℚ
  current_sentence_id : Str
  current_sentence_text : Str

/-- Python `a or b` on optional strings: an absent or empty first value
falls through to the second. -/
def pyOrOpt (a b : Option Str) : Option Str :=
  match a with
  | some s => if s = [] then b else some s
  | none => b

/-- Python `a or b` on optional audio paths: presence check only. -/
def pyOrSound (a b : Option SoundData) : Option SoundData :=
  match a with
  | some x => some x
  | none => b

/-- `next_sentence_for_state` from `build_app`: refill the current sentence
from `filter_sentences` with fallback enabled; the random pick is index `k`. -/
def next_sentence_for_state (pools : Str → List Sentence) (st : AppState) (k : ℕ) : AppState :=
  let user_dialect := pyOrOpt st.user_dialect_code st.dialect_code
  let available := filter_sentences pools (user_dialect.getD []) st.completed_sentences true
  if available = [] then
    { st with current_sentence_id := [],
              current_sentence_text := ("No more sentences.").data,
              active_dialect_code := user_dialect }
  else
    match available.get? (k % available.length) with
    | some (sid, text, used_dialect) =>
        { st with current_sentence_id := sid,
                  current_sentence_text := text,
                  active_dialect_code := some used_dialect }
    | none => st

/-- `handle_save` from `build_app`. Returns the new state paired with whether
`save_session` was called. Failure guards return the state unchanged; on
success the measured duration is added, the current id appended when absent,
and the next sentence drawn (random pick `k`). -/
def handle_save (pools : Str → List Sentence) (audio_rec temp_audio : Option SoundData)
    (edited_sentence : Str) (st : AppState) (k : ℕ) : AppState × Bool :=
  if st.logged_in = false then (st, false)
  else if audio_rec = none ∧ temp_audio = none then (st, false)
  else
    let sentence_text :=
      pyStrip (if edited_sentence = [] then st.current_sentence_text else edited_sentence)
    if sentence_text = [] then (st, false)
    else if st.current_sentence_id = [] then (st, false)
    else
      let au := (pyOrSound audio_rec temp_audio).getD ⟨0, 0, false⟩
      if (validate_audio au).1 = false then (st, false)
      else
        let duration := save_recording_duration au
        let completed :=
          if st.current_sentence_id ∈ st.completed_sentences then st.completed_sentences
          else st.completed_sentences ++ [st.current_sentence_id]
        let st1 := { st with total_duration := st.total_duration + duration,
                             completed_sentences := completed }
        (next_sentence_for_state pools st1 k, true)

/-- `handle_skip` from `build_app`: append the current id when present and
new, persist in that case, then draw the next sentence. -/
def handle_skip (pools : Str → List Sentence) (st : AppState) (k : ℕ) : AppState × Bool :=
  if st.logged_in = false then (st, false)
  else
    let sid := st.current_sentence_id
    if sid ≠ [] ∧ sid ∉ st.completed_sentences then
      (next_sentence_for_state pools
        { st with completed_sentences := st.completed_sentences ++ [sid] } k, true)
    else (next_sentence_for_state pools st k, false)

/-- Split a character list at newline characters, keeping empty pieces. -/
def splitNL : Str → List Str
  | [] => [[]]
  | c :: rest =>
      let r := splitNL rest
      if c = '\n' then [] :: r
      else
        match r with
        | [] => [[c]]
        | h :: t => (c :: h) :: t

/-- Python `str.splitlines` for newline-terminated text: split on newlines,
dropping the final empty piece of a trailing newline. -/
def pySplitlines (l : Str) : List Str :=
  if l = [] then []
  else if l.getLast? = some '\n' then (splitNL l).dropLast
  else splitNL l

/-- Python `"\n".join`. -/
def joinNL : List Str → Str
  | [] => []
  | [r] => r
  | r :: rest => r ++ '\n' :: joinNL rest

/-- Header detection of `append_row_to_s3_metadata`: drop the first stored
line when it strips to the `audio_file|text` header. -/
def dropHeader : List Str → List Str
  | [] => []
  | l0 :: rest => if pyStrip l0 = ("audio_file|text").data then rest else l0 :: rest

/-- The row view `append_row_to_s3_metadata` derives from the stored lines:
drop the header line when present, strip each row, drop blank rows. -/
def buildRows (lines : List Str) : List Str :=
  ((dropHeader lines).map pyStrip).filter (fun r => decide (r ≠ []))

/-- Rows of a stored metadata blob. -/
def listingRows (blob : Str) : List Str := buildRows (pySplitlines blob)

/-- Rows of an optional stored blob (`none` models an absent object). -/
def listingRowsOpt : Option Str → List Str
  | none => []
  | some e => listingRows e

/-- `append_row_to_s3_metadata` from `main_app/app.py` as a transformation of
the stored blob: strip the row, ignore a blank row, start a fresh
header-plus-row blob when nothing meaningful is stored, otherwise merge with
exact-line dedup, rewriting the listing from its stripped non-blank rows. -/
def append_row_to_s3_metadata (existing : Option Str) (row_line0 : Str) : Option Str :=
  let row_line := pyStrip row_line0
  if row_line = [] then existing
  else
    match existing with
    | none => some (("audio_file|text").data ++ '\n' :: (row_line ++ ['\n']))
    | some e =>
        if pyStrip e = [] then
          some (("audio_file|text").data ++ '\n' :: (row_line ++ ['\n']))
        else
          let existing_rows := buildRows (pySplitlines e)
          if row_line ∈ existing_rows then
            some (if e.getLast? = some '\n' then e else e ++ ['\n'])
          else
            some (("audio_file|text").data ++ '\n' ::
              (joinNL (existing_rows ++ [row_line]) ++ ['\n']))

/-! ## Character and string lemmas -/

lemma charToNat_ofNatAux (n : ℕ) (h : n.isValidChar) : (Char.ofNatAux n h).toNat = n := rfl

lemma charToNat_ofNat_valid (n : ℕ) (h : n.isValidChar) : (Char.ofNat n).toNat = n := by
  rw [Char.ofNat, dif_pos h, charToNat_ofNatAux]

lemma charLower_toNat_of_upper (c : Char) (h : 65 ≤ c.toNat ∧ c.toNat ≤ 90) :
    (charLower c).toNat = c.toNat + 32 := by
  rw [charLower, if_pos h, charToNat_ofNat_valid]
  exact Or.inl (by omega)

lemma charLower_not_upper (c : Char) : ¬(65 ≤ (charLower c).toNat ∧ (charLower c).toNat ≤ 90) := by
  by_cases h : 65 ≤ c.toNat ∧ c.toNat ≤ 90
  · have := charLower_toNat_of_upper c h; omega
  · rw [charLower, if_neg h]; exact h

lemma charLower_idem (c : Char) : charLower (charLower c) = charLower c := by
  rw [show charLower (charLower c) = if 65 ≤ (charLower c).toNat ∧ (charLower c).toNat ≤ 90 then
        Char.ofNat ((charLower c).toNat + 32) else charLower c from rfl,
      if_neg (charLower_not_upper c)]

lemma pyIsSpace_charLower (c : Char) : pyIsSpace (charLower c) = pyIsSpace c := by
  by_cases h : 65 ≤ c.toNat ∧ c.toNat ≤ 90
  · have h2 := charLower_toNat_of_upper c h
    have lhs : pyIsSpace (charLower c) = false := by simp [pyIsSpace, h2]; omega
    have rhs : pyIsSpace c = false := by simp [pyIsSpace]; omega
    rw [lhs, rhs]
  · rw [charLower, if_neg h]

lemma splitFirstDash_eq_some {l a b : Str} (h : splitFirstDash l = some (a, b)) :
    l = a ++ '-' :: b ∧ '-' ∉ a := by
  induction l generalizing a b with
  | nil => simp [splitFirstDash] at h
  | cons c rest ih =>
    rw [splitFirstDash] at h
    by_cases hc : c = '-'
    · rw [if_pos hc] at h
      obtain ⟨rfl, rfl⟩ := Prod.mk.injEq .. ▸ (Option.some.injEq .. ▸ h)
      simp [hc]
    · rw [if_neg hc] at h
      cases hrec : splitFirstDash rest with
      | none => rw [hrec] at h; exact absurd h (by simp)
      | some p =>
        obtain ⟨a', b'⟩ := p
        rw [hrec] at h
        obtain ⟨ha, hb⟩ := Prod.mk.injEq .. ▸ (Option.some.injEq .. ▸ h)
        obtain ⟨h1, h2⟩ := ih hrec
        subst hb
        rw [← ha]
        constructor
        · rw [h1]; rfl
        · intro hm
          rcases List.mem_cons.mp hm with h3 | h3
          · exact hc h3.symm
          · exact h2 h3

lemma splitFirstDash_eq_none {l : Str} (h : splitFirstDash l = none) : '-' ∉ l := by
  induction l with
  | nil => simp
  | cons c rest ih =>
    rw [splitFirstDash] at h
    by_cases hc : c = '-'
    · rw [if_pos hc] at h; exact absurd h (by simp)
    · rw [if_neg hc] at h
      cases hrec : splitFirstDash rest with
      | none =>
        intro hm
        rcases List.mem_cons.mp hm with h3 | h3
        · exact hc h3.symm
        · exact ih hrec h3
      | some p => obtain ⟨a', b'⟩ := p; rw [hrec] at h; exact absurd h (by simp)

lemma splitFirstDash_append {a : Str} (b : Str) (h : '-' ∉ a) :
    splitFirstDash (a ++ '-' :: b) = some (a, b) := by
  induction a with
  | nil => simp [splitFirstDash]
  | cons c rest ih =>
    have hc : c ≠ '-' := fun hc => h (hc ▸ List.mem_cons_self c rest)
    have hrest : '-' ∉ rest := fun hm => h (List.mem_cons_of_mem c hm)
    rw [List.cons_append, splitFirstDash, if_neg hc, ih hrest]

lemma dropWhile_eq_self_of_head {p : Char → Bool} {l : Str}
    (h : ∀ c, l.head? = some c → p c = false) : l.dropWhile p = l := by
  cases l with
  | nil => rfl
  | cons c rest => rw [List.dropWhile_cons, h c rfl]; simp

lemma head?_dropWhile {p : Char → Bool} {l : Str} {c : Char}
    (h : (l.dropWhile p).head? = some c) : p c = false := by
  induction l with
  | nil => simp [List.dropWhile] at h
  | cons d rest ih =>
    rw [List.dropWhile_cons] at h
    by_cases hd : p d
    · rw [if_pos hd] at h; exact ih h
    · rw [if_neg hd] at h
      simp only [List.head?_cons, Option.some.injEq] at h
      subst h
      exact Bool.eq_false_iff.mpr hd

lemma getLast?_dropWhile {p : Char → Bool} {l : Str} {c : Char}
    (h : (l.dropWhile p).getLast? = some c) : l.getLast? = some c := by
  have hsub : l.dropWhile p <:+ l := List.dropWhile_suffix p
  obtain ⟨u, hu⟩ := hsub
  have hne : l.dropWhile p ≠ [] := by
    intro he; rw [he] at h; simp at h
  rw [← hu, List.getLast?_append_of_ne_nil u hne]
  exact h

lemma pyStrip_head {l : Str} {c : Char} (h : (pyStrip l).head? = some c) :
    pyIsSpace c = false := by
  rw [pyStrip, List.head?_reverse] at h
  have h2 := getLast?_dropWhile h
  rw [List.getLast?_reverse] at h2
  exact head?_dropWhile h2

lemma pyStrip_getLast {l : Str} {c : Char} (h : (pyStrip l).getLast? = some c) :
    pyIsSpace c = false := by
  rw [pyStrip, List.getLast?_reverse] at h
  exact head?_dropWhile h

lemma pyStrip_eq_self {l : Str}
    (hh : ∀ c, l.head? = some c → pyIsSpace c = false)
    (hl : ∀ c, l.getLast? = some c → pyIsSpace c = false) : pyStrip l = l := by
  have h1 : l.dropWhile pyIsSpace = l := dropWhile_eq_self_of_head hh
  have h2 : l.reverse.dropWhile pyIsSpace = l.reverse := by
    apply dropWhile_eq_self_of_head
    intro c hc
    rw [List.head?_reverse] at hc
    exact hl c hc
  rw [pyStrip, h1, h2, List.reverse_reverse]

lemma pyStrip_idem (l : Str) : pyStrip (pyStrip l) = pyStrip l :=
  pyStrip_eq_self (fun _ h => pyStrip_head h) (fun _ h => pyStrip_getLast h)

lemma pyLower_idem (l : Str) : pyLower (pyLower l) = pyLower l := by
  rw [pyLower, pyLower, List.map_map]
  exact List.map_congr_left (fun c _ => charLower_idem c)

lemma normDialect_ne_nil (l : Str) : normDialect l ≠ [] := by
  rw [normDialect]
  by_cases h : pyLower (pyStrip l) = []
  · rw [if_pos h]; decide
  · rw [if_neg h]; exact h

lemma normDialect_lower (l : Str) : pyLower (normDialect l) = normDialect l := by
  rw [normDialect]
  by_cases h : pyLower (pyStrip l) = []
  · rw [if_pos h]; decide
  · rw [if_neg h]; exact pyLower_idem _

lemma normDialect_head {l : Str} {c : Char} (h : (normDialect l).head? = some c) :
    pyIsSpace c = false := by
  rw [normDialect] at h
  by_cases he : pyLower (pyStrip l) = []
  · rw [if_pos he] at h
    obtain rfl : 'u' = c := by simpa using h
    decide
  · rw [if_neg he, pyLower, List.head?_map] at h
    cases hs : (pyStrip l).head? with
    | none => rw [hs] at h; simp at h
    | some c0 =>
      rw [hs] at h
      have hc : charLower c0 = c := by simpa using h
      subst hc
      rw [pyIsSpace_charLower]
      exact pyStrip_head hs

lemma normDialect_getLast {l : Str} {c : Char} (h : (normDialect l).getLast? = some c) :
    pyIsSpace c = false := by
  rw [normDialect] at h
  by_cases he : pyLower (pyStrip l) = []
  · rw [if_pos he] at h
    obtain rfl : 'n' = c := by simpa using h
    decide
  · rw [if_neg he, pyLower, List.getLast?_map] at h
    cases hs : (pyStrip l).getLast? with
    | none => rw [hs] at h; simp at h
    | some c0 =>
      rw [hs] at h
      have hc : charLower c0 = c := by simpa using h
      subst hc
      rw [pyIsSpace_charLower]
      exact pyStrip_getLast hs

lemma normDialect_eq_self {j : Str} (hne : j ≠ []) (hlow : pyLower j = j)
    (hh : ∀ c, j.head? = some c → pyIsSpace c = false)
    (hl : ∀ c, j.getLast? = some c → pyIsSpace c = false) : normDialect j = j := by
  have hs : pyStrip j = j := pyStrip_eq_self hh hl
  simp only [normDialect, hs, hlow, if_neg hne]

lemma normDialect_idem (l : Str) : normDialect (normDialect l) = normDialect l :=
  normDialect_eq_self (normDialect_ne_nil l) (normDialect_lower l)
    (fun _ h => normDialect_head h) (fun _ h => normDialect_getLast h)

lemma head?_append_left {a b : Str} (h : a ≠ []) : (a ++ b).head? = a.head? := by
  cases a with
  | nil => exact absurd rfl h
  | cons c rest => rfl

/-! ## C7: totality and idempotent normalisation of split_dialect_code -/

/-- C7: `split_dialect_code` is total with the documented defaults — empty or
whitespace-only input normalises to `unk-gen`, a separator-free input gets
subtag `gen` — and splitting the dash-rejoin of its output returns the same
pair. -/
theorem split_dialect_code_total_idem (l : Str) :
    split_dialect_code (joinDialect (split_dialect_code l)) = split_dialect_code l ∧
    (pyStrip l = [] → split_dialect_code l = (("unk").data, ("gen").data)) ∧
    (splitFirstDash (normDialect l) = none → (split_dialect_code l).2 = ("gen").data) := by
  refine ⟨?_, ?_, ?_⟩
  · cases hsp : splitFirstDash (normDialect l) with
    | some p =>
      obtain ⟨a, b⟩ := p
      obtain ⟨hd, hna⟩ := splitFirstDash_eq_some hsp
      have hinner : split_dialect_code l = (a, b) := by
        simp only [split_dialect_code, hsp]
      rw [hinner, joinDialect]
      show split_dialect_code (a ++ '-' :: b) = (a, b)
      rw [show a ++ '-' :: b = normDialect l from hd.symm]
      simp only [split_dialect_code, normDialect_idem, hsp]
    | none =>
      have hinner : split_dialect_code l = (normDialect l, ("gen").data) := by
        simp only [split_dialect_code, hsp]
      rw [hinner, joinDialect]
      have hnd : '-' ∉ normDialect l := splitFirstDash_eq_none hsp
      have hne : normDialect l ++ '-' :: ("gen").data ≠ [] := by simp
      have hlow : pyLower (normDialect l ++ '-' :: ("gen").data) =
          normDialect l ++ '-' :: ("gen").data := by
        rw [pyLower, List.map_append, ← pyLower, normDialect_lower]
        have hg : List.map charLower ('-' :: ("gen").data) = '-' :: ("gen").data := by decide
        rw [hg]
      have hh : ∀ c, (normDialect l ++ '-' :: ("gen").data).head? = some c →
          pyIsSpace c = false := by
        intro c hc
        rw [head?_append_left (normDialect_ne_nil l)] at hc
        exact normDialect_head hc
      have hl2 : ∀ c, (normDialect l ++ '-' :: ("gen").data).getLast? = some c →
          pyIsSpace c = false := by
        intro c hc
        rw [List.getLast?_append_of_ne_nil _ (by simp)] at hc
        have hgl : ('-' :: ("gen").data).getLast? = some 'n' := by decide
        rw [hgl] at hc
        obtain rfl : 'n' = c := by simpa using hc
        decide
      have hj := normDialect_eq_self hne hlow hh hl2
      simp only [split_dialect_code, hj, splitFirstDash_append _ hnd]
  · intro hs
    have hn : normDialect l = ("unk-gen").data := by
      simp only [normDialect, hs]
      rfl
    simp only [split_dialect_code, hn]
    decide
  · intro hsp
    simp only [split_dialect_code, hsp]

/-- Witness for C7 at concrete inputs: a mixed-case padded code, a
whitespace-only code, and a separator-free code. -/
theorem split_dialect_code_total_idem_witness :
    split_dialect_code (joinDialect (split_dialect_code (("  Eg-Ca ").data))) =
      split_dialect_code (("  Eg-Ca ").data) ∧
    split_dialect_code (("   ").data) = (("unk").data, ("gen").data) ∧
    (split_dialect_code (("AR").data)).2 = ("gen").data :=
  ⟨(split_dialect_code_total_idem (("  Eg-Ca ").data)).1,
   (split_dialect_code_total_idem (("   ").data)).2.1 (by decide),
   (split_dialect_code_total_idem (("AR").data)).2.2 (by decide)⟩

/-! ## Selector lemmas and claims C1, C2, C5 -/

lemma split_dialect_code_norm (l : Str) :
    split_dialect_code (normDialect l) = split_dialect_code l := by
  simp only [split_dialect_code, normDialect_idem]

lemma get_fallback_norm (l : Str) :
    get_fallback_dialect_code (normDialect l) = get_fallback_dialect_code l := by
  simp only [get_fallback_dialect_code, split_dialect_code_norm]

lemma mem_pick_for_code {all_sentences : List Sentence} {completed_ids : List Str} {dcode : Str}
    {r : Str × Str × Str} (h : r ∈ pick_for_code all_sentences completed_ids dcode) :
    ∃ s ∈ all_sentences, r = (s.unique_id, s.text, dcode) ∧
      s.unique_id ∉ completed_ids ∧ dcode ∈ s.dialect := by
  rw [pick_for_code] at h
  obtain ⟨s, hs, rfl⟩ := List.mem_map.mp h
  obtain ⟨hmem, hp⟩ := List.mem_filter.mp hs
  simp only [Bool.and_eq_true, decide_eq_true_eq] at hp
  exact ⟨s, hmem, rfl, hp.1, hp.2⟩

lemma mem_filter_sentences {pools : Str → List Sentence} {d : Str} {C : List Str} {f : Bool}
    {r : Str × Str × Str} (h : r ∈ filter_sentences pools d C f) :
    r ∈ pick_for_code (pools ((split_dialect_code d).1)) C (normDialect d) ∨
      r ∈ pick_for_code (pools ((split_dialect_code d).1)) C (get_fallback_dialect_code d) := by
  simp only [filter_sentences, split_dialect_code_norm, get_fallback_norm] at h
  split at h
  · exact Or.inl h
  · split at h
    · exact Or.inr h
    · exact absurd h (List.not_mem_nil r)

lemma select_eq_some_mem {pools : Str → List Sentence} {d : Str} {C : List Str} {f : Bool}
    {k : ℕ} {r : Str × Str × Str} (h : select pools d C f k = some r) :
    r ∈ filter_sentences pools d C f := by
  simp only [select] at h
  exact List.get?_mem h

/-- C1: any sentence returned by select (filter followed by a uniform pick)
has an id outside the completed set, and the dialect code it was matched
under occurs in the applicable-dialect list of a pool sentence carrying that
id and text. -/
theorem select_excludes_completed_and_matches_dialect
    (pools : Str → List Sentence) (d : Str) (C : List Str) (f : Bool) (k : ℕ)
    (r : Str × Str × Str) (h : select pools d C f k = some r) :
    r.1 ∉ C ∧ ∃ s ∈ pools ((split_dialect_code d).1),
      s.unique_id = r.1 ∧ s.text = r.2.1 ∧ r.2.2 ∈ s.dialect := by
  have hmem := select_eq_some_mem h
  rcases mem_filter_sentences hmem with hp | hp <;>
  · obtain ⟨s, hs, rfl, hnc, hdc⟩ := mem_pick_for_code hp
    exact ⟨hnc, s, hs, rfl, rfl, hdc⟩

/-- Witness for C1 on a one-sentence pool for country `eg`. -/
theorem select_excludes_completed_and_matches_dialect_witness :
    (("1").data ∉ ([] : List Str)) ∧
    ∃ s ∈ (fun c => if c = ("eg").data then
        [(⟨("1").data, ("t1").data, [("eg-ca").data]⟩ : Sentence)] else [])
        ((split_dialect_code (("eg-ca").data)).1),
      s.unique_id = ("1").data ∧ s.text = ("t1").data ∧ ("eg-ca").data ∈ s.dialect :=
  select_excludes_completed_and_matches_dialect
    (fun c => if c = ("eg").data then
      [(⟨("1").data, ("t1").data, [("eg-ca").data]⟩ : Sentence)] else [])
    (("eg-ca").data) [] true 0 ((("1").data, ("t1").data, ("eg-ca").data)) (by decide)

/-- C2: when the primary candidate set is empty and fallback is allowed, any
returned selection is tagged with the fallback code of the requested dialect;
when the fallback candidate set is also empty, select returns none. -/
theorem select_fallback_tagging
    (pools : Str → List Sentence) (d : Str) (C : List Str) (k : ℕ)
    (hprim : pick_for_code (pools ((split_dialect_code d).1)) C (normDialect d) = []) :
    (∀ r, select pools d C true k = some r → r.2.2 = get_fallback_dialect_code d) ∧
    (pick_for_code (pools ((split_dialect_code d).1)) C (get_fallback_dialect_code d) = [] →
      select pools d C true k = none) := by
  have hfs : filter_sentences pools d C true =
      pick_for_code (pools ((split_dialect_code d).1)) C (get_fallback_dialect_code d) := by
    simp only [filter_sentences, split_dialect_code_norm, get_fallback_norm, hprim]
    simp
  constructor
  · intro r hr
    have hmem := select_eq_some_mem hr
    rw [hfs] at hmem
    obtain ⟨s, _, rfl, _, _⟩ := mem_pick_for_code hmem
    rfl
  · intro hfall
    simp only [select, hfs, hfall]
    rfl

/-- Witness for C2: a pool holding only a fallback-tagged sentence, and an
exhausted pool. -/
theorem select_fallback_tagging_witness :
    ((("2").data, ("t2").data, ("eg-oth").data) : Str × Str × Str).2.2 =
      get_fallback_dialect_code (("eg-ca").data) ∧
    select (fun _ => ([] : List Sentence)) (("eg-ca").data) [] true 0 = none :=
  ⟨(select_fallback_tagging
      (fun c => if c = ("eg").data then
        [(⟨("2").data, ("t2").data, [("eg-oth").data]⟩ : Sentence)] else [])
      (("eg-ca").data) [] 0 (by decide)).1
      ((("2").data, ("t2").data, ("eg-oth").data)) (by decide),
   (select_fallback_tagging (fun _ => ([] : List Sentence))
      (("eg-ca").data) [] 0 (by decide)).2 (by decide)⟩

lemma dash_not_mem_split_fst (l : Str) : '-' ∉ (split_dialect_code l).1 := by
  cases hsp : splitFirstDash (normDialect l) with
  | some p =>
    obtain ⟨a, b⟩ := p
    have h1 : split_dialect_code l = (a, b) := by simp only [split_dialect_code, hsp]
    rw [h1]
    exact (splitFirstDash_eq_some hsp).2
  | none =>
    have h1 : split_dialect_code l = (normDialect l, ("gen").data) := by
      simp only [split_dialect_code, hsp]
    rw [h1]
    exact splitFirstDash_eq_none hsp

lemma snd_oth_of_norm_eq_fallback {l : Str}
    (h : normDialect l = get_fallback_dialect_code l) :
    (split_dialect_code l).2 = ("oth").data := by
  have hd : get_fallback_dialect_code l = (split_dialect_code l).1 ++ '-' :: ("oth").data := rfl
  have hsp : splitFirstDash (normDialect l) = some ((split_dialect_code l).1, ("oth").data) := by
    rw [h, hd]
    exact splitFirstDash_append _ (dash_not_mem_split_fst l)
  cases hsp2 : splitFirstDash (normDialect l) with
  | none => rw [hsp2] at hsp; exact absurd hsp (by simp)
  | some p =>
    obtain ⟨a, b⟩ := p
    have h1 : split_dialect_code l = (a, b) := by simp only [split_dialect_code, hsp2]
    rw [hsp2] at hsp
    rw [h1]
    exact congrArg Prod.snd (Option.some.inj hsp)

/-- C5: with fallback disabled, any returned selection is tagged with the
normalised primary code, never one obtained through the fallback query; in
particular when the subtag of the requested code is not already `oth`, the
tag differs from the fallback code. -/
theorem select_no_fallback_when_disabled
    (pools : Str → List Sentence) (d : Str) (C : List Str) (k : ℕ)
    (r : Str × Str × Str) (h : select pools d C false k = some r) :
    r.2.2 = normDialect d ∧
    ((split_dialect_code d).2 ≠ ("oth").data → r.2.2 ≠ get_fallback_dialect_code d) := by
  have hmem := select_eq_some_mem h
  have hprimary : r ∈ pick_for_code (pools ((split_dialect_code d).1)) C (normDialect d) := by
    simp only [filter_sentences, split_dialect_code_norm] at hmem
    split at hmem
    · exact hmem
    · exact absurd hmem (List.not_mem_nil r)
  obtain ⟨s, _, rfl, _, _⟩ := mem_pick_for_code hprimary
  refine ⟨rfl, fun hoth hf => hoth ?_⟩
  exact snd_oth_of_norm_eq_fallback hf

/-- Witness for C5 on a pool whose only sentence is primary-tagged. -/
theorem select_no_fallback_when_disabled_witness :
    ((("1").data, ("t1").data, ("eg-ca").data) : Str × Str × Str).2.2 =
      normDialect (("eg-ca").data) ∧
    ((split_dialect_code (("eg-ca").data)).2 ≠ ("oth").data →
      ((("1").data, ("t1").data, ("eg-ca").data) : Str × Str × Str).2.2 ≠
        get_fallback_dialect_code (("eg-ca").data)) :=
  select_no_fallback_when_disabled
    (fun c => if c = ("eg").data then
      [(⟨("1").data, ("t1").data, [("eg-ca").data]⟩ : Sentence)] else [])
    (("eg-ca").data) [] 0 ((("1").data, ("t1").data, ("eg-ca").data)) (by decide)

/-! ## C6: progress ratio -/

/-- C6: for a non-negative duration the progress ratio equals the clamp of
`duration / target` to `[0, 1]` whenever the target is positive (and then
lies in `[0, 1]`), and the guarded non-positive-target branch yields `0`
without performing the division. -/
theorem make_progress_bar_frac_spec (current_seconds target_seconds : ℚ)
    (hc : 0 ≤ current_seconds) :
    (0 < target_seconds →
      make_progress_bar_frac current_seconds target_seconds =
        max 0 (min 1 (current_seconds / target_seconds)) ∧
      0 ≤ make_progress_bar_frac current_seconds target_seconds ∧
      make_progress_bar_frac current_seconds target_seconds ≤ 1) ∧
    (target_seconds ≤ 0 → make_progress_bar_frac current_seconds target_seconds = 0) := by
  constructor
  · intro ht
    have hne : ¬target_seconds ≤ 0 := not_le.mpr ht
    rw [make_progress_bar_frac, if_neg hne]
    refine ⟨rfl, le_max_left 0 _, max_le ?_ ?_⟩
    · exact zero_le_one
    · exact min_le_left 1 _
  · intro ht
    rw [make_progress_bar_frac, if_pos ht]

/-- Witness for C6 at duration 90 against target 60 and against target 0. -/
theorem make_progress_bar_frac_spec_witness :
    make_progress_bar_frac 90 60 = max 0 (min 1 ((90 : ℚ) / 60)) ∧
    make_progress_bar_frac 90 0 = 0 :=
  ⟨((make_progress_bar_frac_spec 90 60 (by norm_num)).1 (by norm_num)).1,
   (make_progress_bar_frac_spec 90 0 (by norm_num)).2 le_rfl⟩

/-! ## C8: rank semantics -/

/-- C8: the rank is one plus the count of same-country rows with strictly
greater duration — a participant strictly ahead of every other row in the
country gets rank 1, and participants with equal durations get equal ranks. -/
theorem get_user_rank_country_spec (db : List LBRow) (c u v : Str) :
    (∀ me, fetch_user_row_country db c u = some me →
      (∀ r ∈ db, r.country_code = c → r ≠ me → r.time_seconds < me.time_seconds) →
      get_user_rank_country db c u = some 1) ∧
    (∀ me mv, fetch_user_row_country db c u = some me →
      fetch_user_row_country db c v = some mv →
      me.time_seconds = mv.time_seconds →
      get_user_rank_country db c u = get_user_rank_country db c v) := by
  have hrank : ∀ (w : Str) (me : LBRow), fetch_user_row_country db c w = some me →
      get_user_rank_country db c w = some ((db.filter
        (fun r => decide (r.country_code = c ∧ me.time_seconds < r.time_seconds))).length + 1) := by
    intro w me h
    rw [get_user_rank_country, h]
  constructor
  · intro me hme htop
    rw [hrank u me hme]
    have hnil : db.filter
        (fun r => decide (r.country_code = c ∧ me.time_seconds < r.time_seconds)) = [] := by
      rw [List.filter_eq_nil_iff]
      intro r hr
      simp only [decide_eq_true_eq, not_and]
      intro hrc
      by_cases hrm : r = me
      · rw [hrm]; exact lt_irrefl _
      · exact not_lt_of_gt (htop r hr hrc hrm)
    rw [hnil]
    rfl
  · intro me mv hme hmv htime
    rw [hrank u me hme, hrank v mv hmv, htime]

/-- Witness for C8 on a three-row store: a strict leader gets rank 1, and two
equal-duration rows receive equal ranks. -/
theorem get_user_rank_country_spec_witness :
    get_user_rank_country
      [⟨("sa").data, ("w").data, [], [], 100, 3⟩,
       ⟨("sa").data, ("x").data, [], [], 40, 1⟩,
       ⟨("sa").data, ("y").data, [], [], 40, 2⟩]
      (("sa").data) (("w").data) = some 1 ∧
    get_user_rank_country
      [⟨("sa").data, ("w").data, [], [], 100, 3⟩,
       ⟨("sa").data, ("x").data, [], [], 40, 1⟩,
       ⟨("sa").data, ("y").data, [], [], 40, 2⟩]
      (("sa").data) (("x").data) =
    get_user_rank_country
      [⟨("sa").data, ("w").data, [], [], 100, 3⟩,
       ⟨("sa").data, ("x").data, [], [], 40, 1⟩,
       ⟨("sa").data, ("y").data, [], [], 40, 2⟩]
      (("sa").data) (("y").data) :=
  ⟨(get_user_rank_country_spec
      [⟨("sa").data, ("w").data, [], [], 100, 3⟩,
       ⟨("sa").data, ("x").data, [], [], 40, 1⟩,
       ⟨("sa").data, ("y").data, [], [], 40, 2⟩]
      (("sa").data) (("w").data) (("w").data)).1
      (⟨("sa").data, ("w").data, [], [], 100, 3⟩) (by decide) (by decide),
   (get_user_rank_country_spec
      [⟨("sa").data, ("w").data, [], [], 100, 3⟩,
       ⟨("sa").data, ("x").data, [], [], 40, 1⟩,
       ⟨("sa").data, ("y").data, [], [], 40, 2⟩]
      (("sa").data) (("x").data) (("y").data)).2
      (⟨("sa").data, ("x").data, [], [], 40, 1⟩)
      (⟨("sa").data, ("y").data, [], [], 40, 2⟩) (by decide) (by decide) rfl⟩

/-! ## C4: below-threshold participants are not written to storage -/

/-- Counterexample to C4 as stated: a participant with 30 recorded seconds
(below the 60-second display threshold) is not written by the upsert — the
store stays empty, so no row of theirs exists in storage. -/
theorem upsert_below_threshold_writes_no_row :
    (30 : ℚ) < LEADERBOARD_MIN_SECONDS_TO_SHOW ∧
    ¬∃ r ∈ upsert_lifetime_leaderboard_entry_country [] (("u1").data) (("sa-hj").data)
        false (("e").data) (("a").data) [("s1").data] 30,
      r.username = ("u1").data := by
  constructor
  · norm_num [LEADERBOARD_MIN_SECONDS_TO_SHOW]
  · intro hex
    obtain ⟨r, hr, _⟩ := hex
    have hempty : upsert_lifetime_leaderboard_entry_country [] (("u1").data) (("sa-hj").data)
        false (("e").data) (("a").data) [("s1").data] 30 = [] := by decide
    rw [hempty] at hr
    exact List.not_mem_nil r hr

/-- C4 amended: when the session duration is below
`LEADERBOARD_MIN_SECONDS_TO_SHOW`, the leaderboard upsert returns without
writing — the store is left exactly as it was, so such a participant neither
appears in the visible top-N nor gains a row for rank computation. -/
theorem upsert_below_threshold_skips_store (db : List LBRow) (username user_dialect : Str)
    (alias_missing : Bool) (emoji alias_label : Str) (sess_completed : List Str)
    (sess_total : ℚ) (h : sess_total < LEADERBOARD_MIN_SECONDS_TO_SHOW) :
    upsert_lifetime_leaderboard_entry_country db username user_dialect alias_missing
      emoji alias_label sess_completed sess_total = db := by
  rw [upsert_lifetime_leaderboard_entry_country]
  cases alias_missing with
  | true => rfl
  | false => simp only [Bool.false_eq_true, if_false, if_pos h]

/-- Witness for the amended C4 on a one-row store. -/
theorem upsert_below_threshold_skips_store_witness :
    upsert_lifetime_leaderboard_entry_country
      [⟨("sa").data, ("w").data, [], [], 100, 3⟩] (("u1").data) (("sa-hj").data)
      false (("e").data) (("a").data) [("s1").data] 30 =
      [⟨("sa").data, ("w").data, [], [], 100, 3⟩] :=
  upsert_below_threshold_skips_store
    [⟨("sa").data, ("w").data, [], [], 100, 3⟩] (("u1").data) (("sa-hj").data)
    false (("e").data) (("a").data) [("s1").data] 30 (by norm_num [LEADERBOARD_MIN_SECONDS_TO_SHOW])

/-! ## Session handler lemmas and claims C3, C10 -/

lemma next_sentence_completed {pools : Str → List Sentence} {st : AppState} {k : ℕ} :
    (next_sentence_for_state pools st k).completed_sentences = st.completed_sentences := by
  simp only [next_sentence_for_state]
  split
  · rfl
  · split
    · rfl
    · rfl

lemma next_sentence_duration {pools : Str → List Sentence} {st : AppState} {k : ℕ} :
    (next_sentence_for_state pools st k).total_duration = st.total_duration := by
  simp only [next_sentence_for_state]
  split
  · rfl
  · split
    · rfl
    · rfl

lemma sound_duration_nonneg (a : SoundData) : 0 ≤ sound_duration a :=
  div_nonneg (Nat.cast_nonneg _) (Nat.cast_nonneg _)

lemma save_recording_duration_nonneg (a : SoundData) : 0 ≤ save_recording_duration a := by
  rw [save_recording_duration]
  split
  · exact sound_duration_nonneg a
  · exact le_refl 0

lemma pair_fst (x : AppState) (b : Bool) : ((x, b) : AppState × Bool).1 = x := rfl

lemma handle_save_progress (pools : Str → List Sentence) (audio_rec temp_audio : Option SoundData)
    (edited_sentence : Str) (st : AppState) (k : ℕ) :
    st.completed_sentences <+: (handle_save pools audio_rec temp_audio edited_sentence st k).1.completed_sentences ∧
    (∀ x ∈ (handle_save pools audio_rec temp_audio edited_sentence st k).1.completed_sentences,
      x ∈ st.completed_sentences ∨ x = st.current_sentence_id) ∧
    st.total_duration ≤ (handle_save pools audio_rec temp_audio edited_sentence st k).1.total_duration := by
  have triv : st.completed_sentences <+: st.completed_sentences ∧
      (∀ x ∈ st.completed_sentences, x ∈ st.completed_sentences ∨ x = st.current_sentence_id) ∧
      st.total_duration ≤ st.total_duration :=
    ⟨List.prefix_refl _, fun x hx => Or.inl hx, le_refl _⟩
  simp only [handle_save]
  by_cases hb1 : st.logged_in = false
  · rw [if_pos hb1]; exact triv
  · rw [if_neg hb1]
    by_cases hb2 : audio_rec = none ∧ temp_audio = none
    · rw [if_pos hb2]; exact triv
    · rw [if_neg hb2]
      by_cases hb3 : pyStrip
          (if edited_sentence = [] then st.current_sentence_text else edited_sentence) = []
      · rw [if_pos hb3]; exact triv
      · rw [if_neg hb3]
        by_cases hb4 : st.current_sentence_id = []
        · rw [if_pos hb4]; exact triv
        · rw [if_neg hb4]
          by_cases hb5 :
              (validate_audio ((pyOrSound audio_rec temp_audio).getD ⟨0, 0, false⟩)).1 = false
          · rw [if_pos hb5]; exact triv
          · rw [if_neg hb5, pair_fst, next_sentence_completed, next_sentence_duration]
            refine ⟨?_, ?_, ?_⟩
            · show st.completed_sentences <+:
                (if st.current_sentence_id ∈ st.completed_sentences then st.completed_sentences
                 else st.completed_sentences ++ [st.current_sentence_id])
              split
              · exact List.prefix_refl _
              · exact ⟨[st.current_sentence_id], rfl⟩
            · intro x hx
              have hx2 : x ∈ (if st.current_sentence_id ∈ st.completed_sentences
                  then st.completed_sentences
                  else st.completed_sentences ++ [st.current_sentence_id]) := hx
              split at hx2
              · exact Or.inl hx2
              · rcases List.mem_append.mp hx2 with hx3 | hx3
                · exact Or.inl hx3
                · exact Or.inr (List.mem_singleton.mp hx3)
            · exact le_add_of_nonneg_right (save_recording_duration_nonneg _)

lemma handle_skip_progress (pools : Str → List Sentence) (st : AppState) (k : ℕ) :
    st.completed_sentences <+: (handle_skip pools st k).1.completed_sentences ∧
    (∀ x ∈ (handle_skip pools st k).1.completed_sentences,
      x ∈ st.completed_sentences ∨ x = st.current_sentence_id) ∧
    st.total_duration ≤ (handle_skip pools st k).1.total_duration := by
  have triv : st.completed_sentences <+: st.completed_sentences ∧
      (∀ x ∈ st.completed_sentences, x ∈ st.completed_sentences ∨ x = st.current_sentence_id) ∧
      st.total_duration ≤ st.total_duration :=
    ⟨List.prefix_refl _, fun x hx => Or.inl hx, le_refl _⟩
  simp only [handle_skip]
  split
  · exact triv
  · split
    · rw [show ((next_sentence_for_state pools
          { st with completed_sentences :=
              st.completed_sentences ++ [st.current_sentence_id] } k, true)).1 =
          next_sentence_for_state pools
          { st with completed_sentences :=
              st.completed_sentences ++ [st.current_sentence_id] } k from rfl,
        next_sentence_completed, next_sentence_duration]
      refine ⟨⟨[st.current_sentence_id], rfl⟩, ?_, le_refl _⟩
      intro x hx
      rcases List.mem_append.mp hx with hx | hx
      · exact Or.inl hx
      · exact Or.inr (List.mem_singleton.mp hx)
    · rw [show ((next_sentence_for_state pools st k, false)).1 =
          next_sentence_for_state pools st k from rfl,
        next_sentence_completed, next_sentence_duration]
      exact triv

/-- C3: across save and skip, the completed-sentence list only grows (the old
list is a prefix of the new one), each operation adds at most the current
sentence id, and the total duration never decreases. -/
theorem session_progress_append_only (pools : Str → List Sentence)
    (audio_rec temp_audio : Option SoundData) (edited_sentence : Str)
    (st : AppState) (k k2 : ℕ) :
    (st.completed_sentences <+:
      (handle_save pools audio_rec temp_audio edited_sentence st k).1.completed_sentences ∧
     (∀ x ∈ (handle_save pools audio_rec temp_audio edited_sentence st k).1.completed_sentences,
        x ∈ st.completed_sentences ∨ x = st.current_sentence_id) ∧
     st.total_duration ≤
      (handle_save pools audio_rec temp_audio edited_sentence st k).1.total_duration) ∧
    (st.completed_sentences <+: (handle_skip pools st k2).1.completed_sentences ∧
     (∀ x ∈ (handle_skip pools st k2).1.completed_sentences,
        x ∈ st.completed_sentences ∨ x = st.current_sentence_id) ∧
     st.total_duration ≤ (handle_skip pools st k2).1.total_duration) :=
  ⟨handle_save_progress pools audio_rec temp_audio edited_sentence st k,
   handle_skip_progress pools st k2⟩

/-- C10: every failure guard of `handle_save` — not logged in, no audio,
blank sentence text, no active sentence id, failed audio validation —
returns the state unchanged and does not call `save_session`. -/
theorem handle_save_error_is_noop (pools : Str → List Sentence)
    (audio_rec temp_audio : Option SoundData) (edited_sentence : Str)
    (st : AppState) (k : ℕ)
    (h : st.logged_in = false ∨ (audio_rec = none ∧ temp_audio = none) ∨
         pyStrip (if edited_sentence = [] then st.current_sentence_text else edited_sentence) = [] ∨
         st.current_sentence_id = [] ∨
         (∀ au, pyOrSound audio_rec temp_audio = some au → (validate_audio au).1 = false)) :
    handle_save pools audio_rec temp_audio edited_sentence st k = (st, false) := by
  simp only [handle_save]
  by_cases hb1 : st.logged_in = false
  · rw [if_pos hb1]
  · rw [if_neg hb1]
    by_cases hb2 : audio_rec = none ∧ temp_audio = none
    · rw [if_pos hb2]
    · rw [if_neg hb2]
      by_cases hb3 : pyStrip
          (if edited_sentence = [] then st.current_sentence_text else edited_sentence) = []
      · rw [if_pos hb3]
      · rw [if_neg hb3]
        by_cases hb4 : st.current_sentence_id = []
        · rw [if_pos hb4]
        · rw [if_neg hb4]
          by_cases hb5 :
              (validate_audio ((pyOrSound audio_rec temp_audio).getD ⟨0, 0, false⟩)).1 = false
          · rw [if_pos hb5]
          · exfalso
            rcases h with hh | hh | hh | hh | hh
            · exact hb1 hh
            · exact hb2 hh
            · exact hb3 hh
            · exact hb4 hh
            · cases hau : pyOrSound audio_rec temp_audio with
              | none =>
                rcases audio_rec with _ | au2
                · rcases temp_audio with _ | au3
                  · exact hb2 ⟨rfl, rfl⟩
                  · exact Option.noConfusion hau
                · exact Option.noConfusion hau
              | some au => exact hb5 (by rw [hau]; exact hh au hau)

/-- Witness for C10: a logged-out state is returned unchanged with no save. -/
theorem handle_save_error_is_noop_witness :
    handle_save (fun _ => []) none none []
      { logged_in := false, username := [], user_dialect_code := none,
        active_dialect_code := none, dialect_code := none, completed_sentences := [],
        total_duration := 0, current_sentence_id := [], current_sentence_text := [] } 0 =
    ({ logged_in := false, username := [], user_dialect_code := none,
       active_dialect_code := none, dialect_code := none, completed_sentences := [],
       total_duration := 0, current_sentence_id := [], current_sentence_text := [] }, false) :=
  handle_save_error_is_noop (fun _ => []) none none []
    { logged_in := false, username := [], user_dialect_code := none,
      active_dialect_code := none, dialect_code := none, completed_sentences := [],
      total_duration := 0, current_sentence_id := [], current_sentence_text := [] } 0
    (Or.inl rfl)

/-! ## Metadata merge lemmas and claim C9 -/

lemma splitNL_ne_nil (l : Str) : splitNL l ≠ [] := by
  cases l with
  | nil => simp [splitNL]
  | cons c rest =>
    rw [splitNL]
    by_cases hc : c = '\n'
    · simp [hc]
    · simp only [if_neg hc]
      cases hrec : splitNL rest with
      | nil => simp
      | cons h t => simp

lemma splitNL_cons_nl (rest : Str) : splitNL ('\n' :: rest) = [] :: splitNL rest := by
  rw [splitNL, if_pos rfl]

lemma splitNL_append_no_nl {a : Str} (ha : '\n' ∉ a) {b : Str} {h : Str} {t : List Str}
    (hb : splitNL b = h :: t) : splitNL (a ++ b) = (a ++ h) :: t := by
  induction a with
  | nil => simpa using hb
  | cons c a2 ih =>
    have hc : c ≠ '\n' := fun hc => ha (hc ▸ List.mem_cons_self c a2)
    have ha2 : '\n' ∉ a2 := fun hm => ha (List.mem_cons_of_mem c hm)
    rw [List.cons_append, splitNL, if_neg hc, ih ha2]
    rfl

lemma splitNL_no_nl {a : Str} (ha : '\n' ∉ a) : splitNL a = [a] := by
  have h0 : splitNL ([] : Str) = [] :: [] := rfl
  have := splitNL_append_no_nl ha h0
  simpa using this

lemma splitNL_concat_nl (x : Str) : splitNL (x ++ ['\n']) = splitNL x ++ [[]] := by
  induction x with
  | nil => rfl
  | cons c rest ih =>
    by_cases hc : c = '\n'
    · subst hc
      rw [List.cons_append, splitNL_cons_nl, splitNL_cons_nl, ih]
      rfl
    · rw [List.cons_append, splitNL, if_neg hc, ih, splitNL, if_neg hc]
      cases hrec : splitNL rest with
      | nil => exact absurd hrec (splitNL_ne_nil rest)
      | cons h t => rfl

lemma splitNL_joinNL {rows : List Str} (hne : rows ≠ []) (hnl : ∀ r ∈ rows, '\n' ∉ r) :
    splitNL (joinNL rows) = rows := by
  induction rows with
  | nil => exact absurd rfl hne
  | cons r rest ih =>
    cases rest with
    | nil =>
      rw [joinNL]
      exact splitNL_no_nl (hnl r (List.mem_cons_self r []))
    | cons r2 rest2 =>
      have hj : joinNL (r :: r2 :: rest2) = r ++ '\n' :: joinNL (r2 :: rest2) := rfl
      rw [hj]
      have hrec : splitNL ('\n' :: joinNL (r2 :: rest2)) =
          [] :: splitNL (joinNL (r2 :: rest2)) := splitNL_cons_nl _
      rw [splitNL_append_no_nl (hnl r (List.mem_cons_self r _)) hrec, List.append_nil,
        ih (by simp) (fun x hx => hnl x (List.mem_cons_of_mem r hx))]

lemma mem_splitNL_no_nl {l : Str} {r : Str} (h : r ∈ splitNL l) : '\n' ∉ r := by
  induction l generalizing r with
  | nil =>
    have : r = [] := by simpa [splitNL] using h
    simp [this]
  | cons c rest ih =>
    rw [splitNL] at h
    by_cases hc : c = '\n'
    · rw [if_pos hc] at h
      rcases List.mem_cons.mp h with h2 | h2
      · simp [h2]
      · exact ih h2
    · rw [if_neg hc] at h
      cases hrec : splitNL rest with
      | nil => exact absurd hrec (splitNL_ne_nil rest)
      | cons p t =>
        rw [hrec] at h
        rcases List.mem_cons.mp h with h2 | h2
        · subst h2
          intro hm
          rcases List.mem_cons.mp hm with h3 | h3
          · exact hc h3.symm
          · exact ih (hrec ▸ List.mem_cons_self p t) h3
        · exact ih (hrec ▸ List.mem_cons_of_mem p h2)

lemma pyStrip_subset {l : Str} {c : Char} (h : c ∈ pyStrip l) : c ∈ l := by
  rw [pyStrip] at h
  rw [List.mem_reverse] at h
  have h2 := (List.dropWhile_sublist pyIsSpace).subset h
  rw [List.mem_reverse] at h2
  exact (List.dropWhile_sublist pyIsSpace).subset h2

lemma all_space_of_pyStrip_nil {l : Str} (h : pyStrip l = []) :
    ∀ c ∈ l, pyIsSpace c = true := by
  rw [pyStrip] at h
  have h2 : (l.dropWhile pyIsSpace).reverse.dropWhile pyIsSpace = [] := by
    have := congrArg List.reverse h
    simpa using this
  rw [List.dropWhile_eq_nil_iff] at h2
  intro c hc
  rcases List.mem_append.mp ((List.takeWhile_append_dropWhile (p := pyIsSpace) (l := l)) ▸ hc)
    with h3 | h3
  · exact List.mem_takeWhile_imp h3
  · exact h2 c (List.mem_reverse.mpr h3)

lemma pyStrip_nil_of_all_space {l : Str} (h : ∀ c ∈ l, pyIsSpace c = true) :
    pyStrip l = [] := by
  have h1 : l.dropWhile pyIsSpace = [] := List.dropWhile_eq_nil_iff.mpr h
  rw [pyStrip, h1]
  rfl

lemma mem_dropHeader {lines : List Str} {p : Str} (h : p ∈ dropHeader lines) : p ∈ lines := by
  cases lines with
  | nil => simpa [dropHeader] using h
  | cons l0 rest =>
    rw [dropHeader] at h
    by_cases h0 : pyStrip l0 = ("audio_file|text").data
    · rw [if_pos h0] at h
      exact List.mem_cons_of_mem l0 h
    · rw [if_neg h0] at h
      exact h

lemma mem_buildRows {lines : List Str} {r : Str} (h : r ∈ buildRows lines) :
    ∃ p ∈ lines, r = pyStrip p ∧ r ≠ [] := by
  rw [buildRows] at h
  obtain ⟨hmem, hne⟩ := List.mem_filter.mp h
  obtain ⟨p, hp, rfl⟩ := List.mem_map.mp hmem
  have hne2 : pyStrip p ≠ [] := by simpa using hne
  exact ⟨p, mem_dropHeader hp, rfl, hne2⟩

lemma buildRows_all_strip {lines : List Str} {r : Str} (h : r ∈ buildRows lines) :
    pyStrip r = r ∧ r ≠ [] := by
  obtain ⟨p, _, rfl, hne⟩ := mem_buildRows h
  exact ⟨pyStrip_idem p, hne⟩

lemma mem_pySplitlines {l : Str} {p : Str} (h : p ∈ pySplitlines l) : p ∈ splitNL l := by
  rw [pySplitlines] at h
  by_cases h1 : l = []
  · rw [if_pos h1] at h
    exact absurd h (List.not_mem_nil p)
  · rw [if_neg h1] at h
    by_cases h2 : l.getLast? = some '\n'
    · rw [if_pos h2] at h
      exact (List.dropLast_sublist (splitNL l)).subset h
    · rw [if_neg h2] at h
      exact h

lemma buildRows_no_nl {l : Str} {r : Str} (h : r ∈ buildRows (pySplitlines l)) : '\n' ∉ r := by
  obtain ⟨p, hp, rfl, _⟩ := mem_buildRows h
  intro hm
  exact mem_splitNL_no_nl (mem_pySplitlines hp) (pyStrip_subset hm)

lemma listingRows_append_newline {e : Str} (hne : e ≠ []) (hl : e.getLast? ≠ some '\n') :
    listingRows (e ++ ['\n']) = listingRows e := by
  rw [listingRows, listingRows, pySplitlines, pySplitlines,
    if_neg hne, if_neg (by simp : e ++ ['\n'] ≠ []), if_neg hl,
    if_pos (List.getLast?_concat e), splitNL_concat_nl, List.dropLast_concat]

lemma mem_splitNL_subset {l : Str} {q : Str} (h : q ∈ splitNL l) : ∀ c ∈ q, c ∈ l := by
  induction l generalizing q with
  | nil =>
    have hq : q = [] := by simpa [splitNL] using h
    simp [hq]
  | cons d rest ih =>
    rw [splitNL] at h
    by_cases hd : d = '\n'
    · rw [if_pos hd] at h
      rcases List.mem_cons.mp h with h2 | h2
      · subst h2; simp
      · intro c hc
        exact List.mem_cons_of_mem d (ih h2 c hc)
    · rw [if_neg hd] at h
      cases hrec : splitNL rest with
      | nil => exact absurd hrec (splitNL_ne_nil rest)
      | cons p t =>
        rw [hrec] at h
        rcases List.mem_cons.mp h with h2 | h2
        · subst h2
          intro c hc
          rcases List.mem_cons.mp hc with h3 | h3
          · exact h3 ▸ List.mem_cons_self d rest
          · exact List.mem_cons_of_mem d (ih (hrec ▸ List.mem_cons_self p t) c h3)
        · intro c hc
          exact List.mem_cons_of_mem d (ih (hrec ▸ List.mem_cons_of_mem p h2) c hc)

lemma listingRows_blank {e : Str} (h : pyStrip e = []) : listingRows e = [] := by
  have hsp := all_space_of_pyStrip_nil h
  rw [listingRows, buildRows, List.filter_eq_nil_iff]
  intro r hr
  obtain ⟨p, hp, rfl⟩ := List.mem_map.mp hr
  have hp2 : p ∈ pySplitlines e := mem_dropHeader hp
  have hnil : pyStrip p = [] :=
    pyStrip_nil_of_all_space
      (fun c hc => hsp c (mem_splitNL_subset (mem_pySplitlines hp2) c hc))
  simp [hnil]

lemma listingRows_header_join (rows : List Str) (hne : rows ≠ [])
    (hnl : ∀ r ∈ rows, '\n' ∉ r) (hstrip : ∀ r ∈ rows, pyStrip r = r)
    (hne2 : ∀ r ∈ rows, r ≠ []) :
    listingRows (("audio_file|text").data ++ '\n' :: (joinNL rows ++ ['\n'])) = rows := by
  have hhdr : '\n' ∉ ("audio_file|text").data := by decide
  have hsj : splitNL (joinNL rows) = rows := splitNL_joinNL hne hnl
  have hb : splitNL ('\n' :: (joinNL rows ++ ['\n'])) = [] :: (rows ++ [[]]) := by
    rw [splitNL_cons_nl, splitNL_concat_nl, hsj]
  have hfull := splitNL_append_no_nl hhdr hb
  rw [List.append_nil] at hfull
  have hlast : (("audio_file|text").data ++ '\n' :: (joinNL rows ++ ['\n'])).getLast? =
      some '\n' := by
    rw [show ("audio_file|text").data ++ '\n' :: (joinNL rows ++ ['\n']) =
        (("audio_file|text").data ++ '\n' :: joinNL rows) ++ ['\n'] by simp]
    exact List.getLast?_concat _
  have hne3 : ("audio_file|text").data ++ '\n' :: (joinNL rows ++ ['\n']) ≠ [] := by simp
  rw [listingRows, pySplitlines, if_neg hne3, if_pos hlast, hfull]
  have hdl : (("audio_file|text").data :: (rows ++ [[]])) =
      (("audio_file|text").data :: rows) ++ [[]] := by simp
  rw [hdl, List.dropLast_concat, buildRows, dropHeader,
    if_pos (by decide : pyStrip (("audio_file|text").data) = ("audio_file|text").data)]
  have hmap : rows.map pyStrip = rows := by
    rw [show rows.map pyStrip = rows.map pyStrip from rfl, List.map_congr_left hstrip]
    exact List.map_id' rows
  rw [hmap, List.filter_eq_self.mpr]
  intro r hr
  simpa using hne2 r hr

lemma listingRows_append_row (e : Option Str) (row0 : Str) (hn : '\n' ∉ row0) :
    listingRowsOpt (append_row_to_s3_metadata e row0) =
      if pyStrip row0 = [] ∨ pyStrip row0 ∈ listingRowsOpt e then listingRowsOpt e
      else listingRowsOpt e ++ [pyStrip row0] := by
  have hrow_nl : '\n' ∉ pyStrip row0 := fun hm => hn (pyStrip_subset hm)
  by_cases h0 : pyStrip row0 = []
  · rw [if_pos (Or.inl h0)]
    simp [append_row_to_s3_metadata, h0]
  · have hfresh : listingRows (("audio_file|text").data ++ '\n' :: (pyStrip row0 ++ ['\n'])) =
        [pyStrip row0] := by
      have hj := listingRows_header_join [pyStrip row0] (by simp)
        (by simpa using hrow_nl) (by simpa using pyStrip_idem row0) (by simpa using h0)
      simpa [joinNL] using hj
    cases e with
    | none =>
      have hmem : ¬(pyStrip row0 = [] ∨ pyStrip row0 ∈ listingRowsOpt none) := by
        simp [listingRowsOpt, h0]
      rw [if_neg hmem]
      have happ : append_row_to_s3_metadata none row0 =
          some (("audio_file|text").data ++ '\n' :: (pyStrip row0 ++ ['\n'])) := by
        simp only [append_row_to_s3_metadata]
        rw [if_neg h0]
      rw [happ]
      show listingRows (("audio_file|text").data ++ '\n' :: (pyStrip row0 ++ ['\n'])) =
        [] ++ [pyStrip row0]
      rw [hfresh]
      rfl
    | some e =>
      simp only [listingRowsOpt, listingRows]
      by_cases hblank : pyStrip e = []
      · have hlr : buildRows (pySplitlines e) = [] := listingRows_blank hblank
        have hmem : ¬(pyStrip row0 = [] ∨ pyStrip row0 ∈ buildRows (pySplitlines e)) := by
          simp [hlr, h0]
        rw [if_neg hmem]
        have happ : append_row_to_s3_metadata (some e) row0 =
            some (("audio_file|text").data ++ '\n' :: (pyStrip row0 ++ ['\n'])) := by
          simp only [append_row_to_s3_metadata]
          rw [if_neg h0, if_pos hblank]
        rw [happ]
        show listingRows (("audio_file|text").data ++ '\n' :: (pyStrip row0 ++ ['\n'])) =
          buildRows (pySplitlines e) ++ [pyStrip row0]
        rw [hfresh, hlr]
        rfl
      · by_cases hmem : pyStrip row0 ∈ buildRows (pySplitlines e)
        · rw [if_pos (Or.inr hmem)]
          have happ : append_row_to_s3_metadata (some e) row0 =
              some (if e.getLast? = some '\n' then e else e ++ ['\n']) := by
            simp only [append_row_to_s3_metadata]
            rw [if_neg h0, if_neg hblank, if_pos hmem]
          rw [happ]
          by_cases hend : e.getLast? = some '\n'
          · rw [if_pos hend]
          · rw [if_neg hend]
            show listingRows (e ++ ['\n']) = buildRows (pySplitlines e)
            exact listingRows_append_newline (fun he => hblank (by rw [he]; rfl)) hend
        · rw [if_neg (not_or.mpr ⟨h0, hmem⟩)]
          have happ : append_row_to_s3_metadata (some e) row0 =
              some (("audio_file|text").data ++ '\n' ::
                (joinNL (buildRows (pySplitlines e) ++ [pyStrip row0]) ++ ['\n'])) := by
            simp only [append_row_to_s3_metadata]
            rw [if_neg h0, if_neg hblank, if_neg hmem]
          rw [happ]
          show listingRows (("audio_file|text").data ++ '\n' ::
              (joinNL (buildRows (pySplitlines e) ++ [pyStrip row0]) ++ ['\n'])) =
            buildRows (pySplitlines e) ++ [pyStrip row0]
          apply listingRows_header_join
          · simp
          · intro r hr
            rcases List.mem_append.mp hr with hr | hr
            · exact buildRows_no_nl hr
            · rw [List.mem_singleton.mp hr]
              exact hrow_nl
          · intro r hr
            rcases List.mem_append.mp hr with hr | hr
            · exact (buildRows_all_strip hr).1
            · rw [List.mem_singleton.mp hr]
              exact pyStrip_idem row0
          · intro r hr
            rcases List.mem_append.mp hr with hr | hr
            · exact (buildRows_all_strip hr).2
            · rw [List.mem_singleton.mp hr]
              exact h0

/-- Counterexample to C9 as stated: on a stored blob that already lists the
row twice, merging that row leaves it listed twice — the merge never removes
pre-existing duplicates, so "a given row never appears twice in the merged
content" fails for arbitrary stored blobs. -/
theorem metadata_merge_duplicate_counterexample :
    append_row_to_s3_metadata (some (("audio_file|text\nr\nr\n").data)) (("r").data) =
      some (("audio_file|text\nr\nr\n").data) ∧
    (listingRowsOpt (append_row_to_s3_metadata
        (some (("audio_file|text\nr\nr\n").data)) (("r").data))).count (("r").data) = 2 := by
  constructor
  · decide
  · decide

/-- C9 amended: for a newline-free row, merging a row already present leaves
the listing rows unchanged, and merging preserves freedom from duplicates —
so a row never appears twice provided the stored listing was duplicate-free
(as every listing produced from scratch by this merge is). -/
theorem metadata_merge_idem_dedup (e : Option Str) (row0 : Str) (hn : '\n' ∉ row0) :
    (pyStrip row0 ∈ listingRowsOpt e →
      listingRowsOpt (append_row_to_s3_metadata e row0) = listingRowsOpt e) ∧
    ((listingRowsOpt e).Nodup → (listingRowsOpt (append_row_to_s3_metadata e row0)).Nodup) := by
  rw [listingRows_append_row e row0 hn]
  constructor
  · intro hm
    rw [if_pos (Or.inr hm)]
  · intro hd
    by_cases hc : pyStrip row0 = [] ∨ pyStrip row0 ∈ listingRowsOpt e
    · rw [if_pos hc]; exact hd
    · rw [if_neg hc]
      push_neg at hc
      simp [List.nodup_append, hd, hc.2]

/-- Witness for the amended C9: merging an already-present row into a stored
one-row blob changes nothing and keeps the listing duplicate-free. -/
theorem metadata_merge_idem_dedup_witness :
    (listingRowsOpt (append_row_to_s3_metadata (some (("audio_file|text\nrow1\n").data))
        (("row1").data)) = listingRowsOpt (some (("audio_file|text\nrow1\n").data))) ∧
    (listingRowsOpt (append_row_to_s3_metadata (some (("audio_file|text\nrow1\n").data))
        (("row1").data))).Nodup :=
  ⟨(metadata_merge_idem_dedup (some (("audio_file|text\nrow1\n").data)) (("row1").data)
      (by decide)).1 (by decide),
   (metadata_merge_idem_dedup (some (("audio_file|text\nrow1\n").data)) (("row1").data)
      (by decide)).2 (by decide)⟩
